import Mathlib

/-!
Verification of the label-layout and input-normalization logic of the
`labelator` package (`src/labelator/labelator.py`).

The Python source is shallowly embedded: floats become `ℚ`, Python `int`s
become `ℤ` (grid keys, which may be negative) or `ℕ` (grid dimensions and
list indices, which the source only ever takes from `enumerate`),
raised `ValueError`s become an explicit error type, and the imperative
loops of `normalize_labels` become `List.foldl` over the same loop state.
-/

namespace Labelator

/-- Embedding of the `Parameters` dataclass (labelator.py lines 33-71).
Float fields become `ℚ`; `num_rows`/`num_cols` are grid dimensions. -/
structure Parameters where
  x_multiplier : ℚ
  y_multiplier : ℚ
  x_offset : ℚ
  y_offset : ℚ
  radius : ℚ
  default_font_size : ℚ
  page_width_px : ℤ
  page_height_px : ℤ
  num_rows : ℕ
  num_cols : ℕ
deriving DecidableEq

/-- The `flexilabels_260_per_a4_sheet` preset (lines 74-85). -/
def flexilabels_260_per_a4_sheet : Parameters :=
  { x_multiplier := 49.16
    y_multiplier := 49.16
    x_offset := 102.0
    y_offset := 94.5
    radius := 19.0
    default_font_size := 8.0
    page_width_px := 794
    page_height_px := 1123
    num_rows := 20
    num_cols := 13 }

/-- `x_pixels_of` (lines 273-274): `params.x_offset + col * params.x_multiplier`. -/
def x_pixels_of (col : ℤ) (params : Parameters) : ℚ :=
  params.x_offset + col * params.x_multiplier

/-- `y_pixels_of` (lines 277-278).  NOTE: the source multiplies by
`params.x_multiplier`, not `params.y_multiplier`:
`params.y_offset + (params.num_rows - row - 1) * params.x_multiplier`. -/
def y_pixels_of (row : ℤ) (params : Parameters) : ℚ :=
  params.y_offset + ((params.num_rows : ℚ) - (row : ℚ) - 1) * params.x_multiplier

/-- The three accepted shapes of the `labels` argument of `write_labels`
(dict mapping `(row, col)` to text / 1D list / 2D list). -/
inductive Labels where
  | dict (entries : List ((ℤ × ℤ) × String)) : Labels
  | flat (items : List String) : Labels
  | twoD (rows : List (List String)) : Labels
deriving DecidableEq

/-- The distinct `ValueError`s raised by `labelator.py`, with the data that
each message interpolates. -/
inductive LabelError where
  | orderByWithDict : LabelError
  | orderByWith2D : LabelError
  | outOfBoundsRow (row : ℤ) (num_rows : ℕ) : LabelError
  | outOfBoundsCol (col : ℤ) (num_cols : ℕ) : LabelError
  | tooManyRows (rows max_rows : ℕ) : LabelError
  | rowTooLong (row_idx row_len max_cols : ℕ) : LabelError
  | tooManyItems (len : ℕ) : LabelError
  | invalidOrderBy (order_by : String) : LabelError
  | unsupportedExt (ext : List Char) : LabelError
  | missingExt (filename : List Char) : LabelError
deriving DecidableEq

/-- The grid-bounds invariant for one dict key (lines 202-206). -/
def inBounds (p : Parameters) (k : ℤ × ℤ) : Prop :=
  0 ≤ k.1 ∧ k.1 < (p.num_rows : ℤ) ∧ 0 ≤ k.2 ∧ k.2 < (p.num_cols : ℤ)

instance (p : Parameters) (k : ℤ × ℤ) : Decidable (inBounds p k) := by
  unfold inBounds; infer_instance

/-- The bounds-checking loop over dict keys (lines 202-206): the first key
whose row (checked first) or column is out of range raises. -/
def check_bounds (entries : List ((ℤ × ℤ) × String)) (num_rows num_cols : ℕ) :
    Option LabelError :=
  match entries with
  | [] => none
  | ((row, col), _) :: rest =>
    if ¬((0:ℤ) ≤ row ∧ row < (num_rows : ℤ)) then some (.outOfBoundsRow row num_rows)
    else if ¬((0:ℤ) ≤ col ∧ col < (num_cols : ℤ)) then some (.outOfBoundsCol col num_cols)
    else check_bounds rest num_rows num_cols

/-- The 2D-list validation loop (lines 219-222): the first row longer than
`num_cols` raises, naming the row index and its length. -/
def check_row_lengths (rows : List (List String)) (num_cols : ℕ) (idx : ℕ) :
    Option LabelError :=
  match rows with
  | [] => none
  | row :: rest =>
    if row.length > num_cols then some (.rowTooLong idx row.length num_cols)
    else check_row_lengths rest num_cols (idx + 1)

/-- `labels_2d[-1].append(label)` (line 242): append to the last row. The
`[]` case is unreachable in the loop (a row is always created first). -/
def appendLast : List (List String) → String → List (List String)
  | [], _ => []
  | [r], l => [r ++ [l]]
  | r :: r' :: rs, l => r :: appendLast (r' :: rs) l

/-- `labels_2d[row].append(label)` (line 254): append to row `r`. -/
def appendAt (g : List (List String)) (r : ℕ) (l : String) : List (List String) :=
  g.set r (g.getD r [] ++ [l])

/-- One iteration of the row-major loop (lines 236-243).  State is
`(labels_2d, col)`. -/
def rowStep (num_cols : ℕ) (s : List (List String) × ℕ) (label : String) :
    List (List String) × ℕ :=
  let col := if s.2 = num_cols then 0 else s.2
  let acc := if col = 0 then s.1 ++ [[]] else s.1
  (appendLast acc label, col + 1)

/-- The row-major reshaping loop (lines 235-243), starting from
`labels_2d = []`, `col = 0`. -/
def row_major_2d (num_cols : ℕ) (labels : List String) : List (List String) :=
  (labels.foldl (rowStep num_cols) ([], 0)).1

/-- One iteration of the column-major loop (lines 245-255).  State is
`(labels_2d, row, on_first_col)`. -/
def colStep (num_rows : ℕ) (s : List (List String) × ℕ × Bool) (label : String) :
    List (List String) × ℕ × Bool :=
  let row := if s.2.1 = num_rows then 0 else s.2.1
  let fc := if s.2.1 = num_rows then false else s.2.2
  let acc := if fc then s.1 ++ [[]] else s.1
  (appendAt acc row label, row + 1, fc)

/-- The column-major reshaping loop (lines 245-255), starting from
`labels_2d = []`, `row = 0`, `on_first_col = True`. -/
def col_major_2d (num_rows : ℕ) (labels : List String) : List (List String) :=
  (labels.foldl (colStep num_rows) ([], 0, true)).1

/-- The entries produced for one row of `labels_2d` by the inner loop of the
2D-list-to-dict conversion (lines 263-265), starting at column `c`. -/
def rowEntries (r c : ℕ) : List String → List ((ℤ × ℤ) × String)
  | [] => []
  | v :: rest => (((r : ℤ), (c : ℤ)), v) :: rowEntries r (c + 1) rest

/-- The 2D-list-to-dict conversion (lines 262-265), with `r` the index of the
first row. -/
def toDictFrom (r : ℕ) : List (List String) → List ((ℤ × ℤ) × String)
  | [] => []
  | row :: rest => rowEntries r 0 row ++ toDictFrom (r + 1) rest

/-- `labels_dict = {(row, col): label for ...}` (lines 262-265). -/
def toDict (g : List (List String)) : List ((ℤ × ℤ) × String) :=
  toDictFrom 0 g

/-- Embedding of `normalize_labels` (lines 190-270).  Python dicts are
modelled as insertion-ordered association lists with unique keys. -/
def normalize_labels (labels : Labels) (order_by : Option String) (params : Parameters) :
    Except LabelError (List ((ℤ × ℤ) × String)) :=
  let num_rows := params.num_rows
  let num_cols := params.num_cols
  match labels with
  | .dict entries =>
    -- lines 198-207
    match order_by with
    | some _ => .error .orderByWithDict
    | none =>
      match check_bounds entries num_rows num_cols with
      | some e => .error e
      | none => .ok entries
  | .twoD rows =>
    -- lines 209-223 (2D branch); an empty list short-circuits at line 210
    if rows.length = 0 then .ok (toDict [])
    else if order_by ≠ none then .error .orderByWith2D
    else if rows.length > num_rows then .error (.tooManyRows rows.length num_rows)
    else
      match check_row_lengths rows num_cols 0 with
      | some e => .error e
      | none => .ok (toDict rows)
  | .flat items =>
    -- lines 209-259 (1D branch); an empty list short-circuits at line 210
    if items.length = 0 then .ok (toDict [])
    else if items.length > num_cols * num_rows then .error (.tooManyItems items.length)
    else
      let ob := order_by.getD "row"
      if ob = "row" then .ok (toDict (row_major_2d num_cols items))
      else if ob = "col" then .ok (toDict (col_major_2d num_rows items))
      else .error (.invalidOrderBy ob)

/-- The three export formats of `write_labels` (lines 172-177). -/
inductive WriteAction where
  | pdf : WriteAction
  | svg : WriteAction
  | png : WriteAction
deriving DecidableEq

/-- `filename.lower().endswith(suf)`: the last `suf.length` characters of the
lowercased filename equal `suf`. -/
def lowerEndsWith (fn suf : List Char) : Bool :=
  let low := fn.map Char.toLower
  decide (suf.length ≤ low.length ∧ low.drop (low.length - suf.length) = suf)

/-- `filename[filename.rindex('.') + 1:]` (lines 181-182): the text after the
last dot. -/
def afterLastDot (fn : List Char) : List Char :=
  (fn.reverse.takeWhile (fun c => c ≠ '.')).reverse

/-- The extension dispatch of `write_labels` (lines 172-185), including the
duplicated `.pdf` test on line 176 that guards the `.png` branch. -/
def write_action (filename : List Char) : Except LabelError WriteAction :=
  if lowerEndsWith filename ".pdf".toList then .ok .pdf
  else if lowerEndsWith filename ".svg".toList then .ok .svg
  else if lowerEndsWith filename ".pdf".toList then .ok .png
  else if '.' ∈ filename then .error (.unsupportedExt (afterLastDot filename))
  else .error (.missingExt filename)

/-- The primitives appended to the drawing by `make_label` (lines 281-324). -/
inductive Primitive where
  | circle (cx cy r stroke_width : ℚ) : Primitive
  | textBlock (content : String) (font_size x y dx_em dy_em line_height : ℚ)
      (font_family font_weight : String) : Primitive
deriving DecidableEq

/-- The per-render styling options of `write_labels`, with `font_size`
already resolved against `params.default_font_size` (lines 158-159). -/
structure RenderOptions where
  show_circles : Bool
  font_size : ℚ
  dx_text_em : ℚ
  dy_text_em : ℚ
  line_height : ℚ
  font_family : String
  font_weight : String
  circle_stroke_width : ℚ
deriving DecidableEq

/-- `make_label` (lines 281-324): an optional boundary circle followed by a
centered text block whose `dy` offset vertically balances the line block. -/
def make_label (label : String) (row col : ℤ) (o : RenderOptions) (p : Parameters) :
    List Primitive :=
  let x_px := x_pixels_of col p
  let y_px := y_pixels_of row p
  let num_lines := (label.splitOn "\n").length
  let dy := o.dy_text_em - ((num_lines : ℚ) - 1) / 2 * o.line_height
  (if o.show_circles then [.circle x_px y_px p.radius o.circle_stroke_width] else [])
    ++ [.textBlock label o.font_size x_px y_px o.dx_text_em dy o.line_height
          o.font_family o.font_weight]

/-- `label.strip()` on the character list: drop whitespace from both ends. -/
def strip (l : List Char) : List Char :=
  ((l.dropWhile Char.isWhitespace).reverse.dropWhile Char.isWhitespace).reverse

/-- The body of the rendering loop of `write_labels` (lines 164-170): a label
is rendered only when `label.strip() != ''`. -/
def renderEntry (o : RenderOptions) (p : Parameters) (kv : (ℤ × ℤ) × String) :
    List Primitive :=
  if strip kv.2.toList = [] then [] else make_label kv.2 kv.1.1 kv.1.2 o p

/-- The full rendering loop of `write_labels` (lines 164-170). -/
def render_labels (entries : List ((ℤ × ℤ) × String)) (o : RenderOptions)
    (p : Parameters) : List Primitive :=
  (entries.map (renderEntry o p)).flatten

/-- Embedding of `write_labels` (lines 94-187): resolve the font size,
normalize the labels, render every non-blank entry, then dispatch on the
filename extension. -/
def write_labels (filename : List Char) (labels : Labels) (order_by : Option String)
    (show_circles : Bool) (font_size : Option ℚ) (dx_text_em dy_text_em line_height : ℚ)
    (font_family font_weight : String) (circle_stroke_width : ℚ) (params : Parameters) :
    Except LabelError (List Primitive × WriteAction) :=
  let fs := font_size.getD params.default_font_size
  let o : RenderOptions :=
    ⟨show_circles, fs, dx_text_em, dy_text_em, line_height, font_family, font_weight,
      circle_stroke_width⟩
  match normalize_labels labels order_by params with
  | .error e => .error e
  | .ok entries =>
    match write_action filename with
    | .error e => .error e
    | .ok act => .ok (render_labels entries o params, act)

/-! ### Derived characterizations used by the proofs

`colSpec` is the value of the loop counter of either reshaping loop after
`k` iterations; `rowMajorGrid`/`colMajorGrid` are closed forms for the 2D
list built by the row-major/column-major loop on a `k`-element input. -/

/-- Value of the `col` (row-major) / `row` (column-major) loop counter after
`k` iterations of the reshaping loops. -/
def colSpec (n k : ℕ) : ℕ :=
  if k = 0 then 0 else (k - 1) % n + 1

/-- Number of rows the row-major loop has created after consuming `L`
labels: one for every index `i < L` with `i % num_cols = 0`. -/
def rowsCount (num_cols L : ℕ) : ℕ :=
  (List.range L).countP (fun i => decide (i % num_cols = 0))

/-- Closed form of the 2D list built by the row-major loop: row `r` is the
`r`-th chunk of `num_cols` consecutive labels. -/
def rowMajorGrid (num_cols : ℕ) (labels : List String) : List (List String) :=
  (List.range (rowsCount num_cols labels.length)).map
    (fun r => (labels.drop (r * num_cols)).take num_cols)

/-- Length of row `r` of the column-major grid on `L` labels: one entry for
every index `i < L` with `i % num_rows = r`. -/
def colRowLen (num_rows r L : ℕ) : ℕ :=
  (List.range L).countP (fun i => decide (i % num_rows = r))

/-- Closed form of the 2D list built by the column-major loop: row `r`
collects the labels at indices `r, r + num_rows, r + 2 * num_rows, ...`. -/
def colMajorGrid (num_rows : ℕ) (labels : List String) : List (List String) :=
  (List.range (min labels.length num_rows)).map
    (fun r => (List.range (colRowLen num_rows r labels.length)).map
      (fun j => labels.getD (r + j * num_rows) ""))

/-- An error names an offending coordinate of `entries` together with the
valid range, as the messages on lines 204 and 206 do. -/
def oobWitnessed (p : Parameters) (entries : List ((ℤ × ℤ) × String))
    (e : LabelError) : Prop :=
  (∃ kv ∈ entries, e = .outOfBoundsRow kv.1.1 p.num_rows ∧
    ¬((0:ℤ) ≤ kv.1.1 ∧ kv.1.1 < (p.num_rows : ℤ)))
  ∨ (∃ kv ∈ entries, e = .outOfBoundsCol kv.1.2 p.num_cols ∧
    ¬((0:ℤ) ≤ kv.1.2 ∧ kv.1.2 < (p.num_cols : ℤ)))

/-- A small 2×2 test sheet used to instantiate universally quantified
results on concrete inputs. -/
def P0 : Parameters :=
  { x_multiplier := 1
    y_multiplier := 1
    x_offset := 0
    y_offset := 0
    radius := 1
    default_font_size := 8
    page_width_px := 10
    page_height_px := 10
    num_rows := 2
    num_cols := 2 }

/-- A sheet whose horizontal and vertical spacing differ
(`x_multiplier = 1`, `y_multiplier = 2`), exposing which multiplier
`y_pixels_of` actually uses. -/
def paramsC1 : Parameters :=
  { x_multiplier := 1
    y_multiplier := 2
    x_offset := 0
    y_offset := 0
    radius := 1
    default_font_size := 8
    page_width_px := 10
    page_height_px := 10
    num_rows := 2
    num_cols := 2 }

/-! ### Arithmetic helpers -/

theorem mod_succ_eq (n k : ℕ) (h : 0 < n) :
    (k + 1) % n = if k % n + 1 = n then 0 else k % n + 1 := by
  have hdm : n * (k / n) + k % n = k := Nat.div_add_mod k n
  have hlt : k % n < n := Nat.mod_lt _ h
  split_ifs with hc
  · have e : k + 1 = n * (k / n + 1) := by rw [Nat.mul_succ]; omega
    rw [e, Nat.mul_mod_right]
  · have e : k + 1 = n * (k / n) + (k % n + 1) := by omega
    rw [e, Nat.mul_add_mod]
    exact Nat.mod_eq_of_lt (by omega)

theorem div_succ_eq (n k : ℕ) (h : 0 < n) :
    (k + 1) / n = if k % n + 1 = n then k / n + 1 else k / n := by
  have hdm : n * (k / n) + k % n = k := Nat.div_add_mod k n
  have hlt : k % n < n := Nat.mod_lt _ h
  split_ifs with hc
  · have e : k + 1 = n * (k / n + 1) := by rw [Nat.mul_succ]; omega
    rw [e, Nat.mul_div_cancel_left _ h]
  · have e : k + 1 = n * (k / n) + (k % n + 1) := by omega
    rw [e, Nat.mul_add_div h, Nat.div_eq_of_lt (show k % n + 1 < n by omega),
      Nat.add_zero]

/-- Counting the indices below `k` in a fixed residue class `r` modulo `n`:
there are `k / n` of them, plus one more when `r < k % n`. -/
theorem countP_mod_range (n : ℕ) (h : 0 < n) (r : ℕ) (hr : r < n) (k : ℕ) :
    (List.range k).countP (fun i => decide (i % n = r)) =
      k / n + (if r < k % n then 1 else 0) := by
  induction k with
  | zero => simp
  | succ k ih =>
    rw [List.range_succ, List.countP_append, ih]
    have hlt : k % n < n := Nat.mod_lt _ h
    have hm := mod_succ_eq n k h
    have hd := div_succ_eq n k h
    simp only [List.countP_cons, List.countP_nil, Nat.zero_add, hm, hd,
      decide_eq_true_eq]
    split_ifs <;> omega

/-- The index of the `j`-th entry of residue row `r` lies below `k`. -/
theorem index_lt_of_lt_colRowLen (n r k j : ℕ) (h : 0 < n) (hr : r < n)
    (hj : j < colRowLen n r k) : r + j * n < k := by
  rw [colRowLen, countP_mod_range n h r hr] at hj
  have hdm : n * (k / n) + k % n = k := Nat.div_add_mod k n
  split_ifs at hj with hc
  · have hj' : j ≤ k / n := by omega
    have hmul : j * n ≤ k / n * n := Nat.mul_le_mul_right n hj'
    have : k / n * n = n * (k / n) := Nat.mul_comm ..
    omega
  · have hj' : j + 1 ≤ k / n := by omega
    have hmul : (j + 1) * n ≤ k / n * n := Nat.mul_le_mul_right n hj'
    have h2 : k / n * n ≤ k := Nat.div_mul_le_self k n
    have : (j + 1) * n = j * n + n := Nat.succ_mul ..
    omega

/-- The row of the column-major grid that index `k` itself lands in has
exactly `k / n` entries so far. -/
theorem colRowLen_self (n k : ℕ) (h : 0 < n) : colRowLen n (k % n) k = k / n := by
  rw [colRowLen, countP_mod_range n h _ (Nat.mod_lt _ h)]
  simp

theorem colRowLen_succ (n r k : ℕ) :
    colRowLen n r (k + 1) = colRowLen n r k + (if k % n = r then 1 else 0) := by
  rw [colRowLen, colRowLen, List.range_succ, List.countP_append]
  simp [List.countP_cons]

theorem rowsCount_succ (n k : ℕ) :
    rowsCount n (k + 1) = rowsCount n k + (if k % n = 0 then 1 else 0) := by
  rw [rowsCount, rowsCount, List.range_succ, List.countP_append]
  simp [List.countP_cons]

theorem rowsCount_eq (n : ℕ) (h : 0 < n) (k : ℕ) :
    rowsCount n k = k / n + (if 0 < k % n then 1 else 0) := by
  rw [rowsCount, countP_mod_range n h 0 h]

theorem rowsCount_zero (n : ℕ) : rowsCount n 0 = 0 := by
  simp [rowsCount]

theorem colSpec_zero (n : ℕ) : colSpec n 0 = 0 := by
  simp [colSpec]

theorem colSpec_succ (n k : ℕ) : colSpec n (k + 1) = k % n + 1 := by
  simp [colSpec]

/-- After the wrap-around test, the loop counter equals `k % n`. -/
theorem colSpec_step (n k : ℕ) (h : 0 < n) :
    (if colSpec n k = n then 0 else colSpec n k) = k % n := by
  match k with
  | 0 =>
    rw [colSpec_zero]
    have : ¬(0 = n) := by omega
    simp [this]
  | j + 1 =>
    rw [colSpec_succ, mod_succ_eq n j h]

/-! ### List helpers -/

theorem drop_append_le {α : Type} (xs ys : List α) (n : ℕ) (h : n ≤ xs.length) :
    (xs ++ ys).drop n = xs.drop n ++ ys := by
  rw [List.drop_append_eq_append_drop, Nat.sub_eq_zero_of_le h, List.drop_zero]

theorem take_append_le {α : Type} (xs ys : List α) (n : ℕ) (h : n ≤ xs.length) :
    (xs ++ ys).take n = xs.take n := by
  rw [List.take_append_eq_append_take, Nat.sub_eq_zero_of_le h, List.take_zero,
    List.append_nil]

theorem getD_append_lt {α : Type} (xs ys : List α) (n : ℕ) (d : α)
    (h : n < xs.length) : (xs ++ ys).getD n d = xs.getD n d := by
  rw [List.getD_eq_getElem?_getD, List.getD_eq_getElem?_getD,
    List.getElem?_append_left h]

theorem getD_concat_length {α : Type} (xs : List α) (x d : α) :
    (xs ++ [x]).getD xs.length d = x := by
  rw [List.getD_eq_getElem?_getD, List.getElem?_concat_length]
  rfl

theorem set_concat_length {α : Type} (xs : List α) (x y : α) :
    (xs ++ [x]).set xs.length y = xs ++ [y] := by
  induction xs with
  | nil => rfl
  | cons a xs ih =>
    show a :: (xs ++ [x]).set xs.length y = a :: (xs ++ [y])
    rw [ih]

theorem appendLast_concat (xs : List (List String)) (r : List String) (l : String) :
    appendLast (xs ++ [r]) l = xs ++ [r ++ [l]] := by
  induction xs with
  | nil => rfl
  | cons x xs ih =>
    cases xs with
    | nil => rfl
    | cons y ys =>
      show x :: appendLast ((y :: ys) ++ [r]) l = x :: ((y :: ys) ++ [r ++ [l]])
      rw [ih]

theorem appendAt_concat (xs : List (List String)) (r : List String) (l : String) :
    appendAt (xs ++ [r]) xs.length l = xs ++ [r ++ [l]] := by
  rw [appendAt, getD_concat_length, set_concat_length]

theorem appendAt_cons_zero (row : List String) (g : List (List String)) (l : String) :
    appendAt (row :: g) 0 l = (row ++ [l]) :: g := by
  simp [appendAt]

theorem appendAt_cons_succ (row : List String) (g : List (List String)) (r : ℕ)
    (l : String) : appendAt (row :: g) (r + 1) l = row :: appendAt g r l := by
  simp [appendAt]

theorem appendAt_length (g : List (List String)) (r : ℕ) (l : String) :
    (appendAt g r l).length = g.length := by
  simp [appendAt]

theorem sum_map_length_appendLast (g : List (List String)) (l : String) (h : g ≠ []) :
    ((appendLast g l).map List.length).sum = (g.map List.length).sum + 1 := by
  induction g with
  | nil => exact absurd rfl h
  | cons r g ih =>
    cases g with
    | nil => simp [appendLast]
    | cons r2 g2 =>
      have ih' := ih (by simp)
      show (((r :: appendLast (r2 :: g2) l)).map List.length).sum = _
      simp only [List.map_cons, List.sum_cons] at ih' ⊢
      omega

theorem sum_map_length_appendAt (g : List (List String)) (r : ℕ) (l : String)
    (h : r < g.length) :
    ((appendAt g r l).map List.length).sum = (g.map List.length).sum + 1 := by
  induction g generalizing r with
  | nil => simp at h
  | cons row g ih =>
    cases r with
    | zero =>
      rw [appendAt_cons_zero]
      simp only [List.map_cons, List.sum_cons, List.length_append,
        List.length_singleton]
      omega
    | succ r =>
      rw [appendAt_cons_succ]
      have ih' := ih r (by simpa using h)
      simp only [List.map_cons, List.sum_cons, ih']
      omega

/-! ### The 2D-list-to-dict conversion -/

theorem rowEntries_length (r : ℕ) (row : List String) :
    ∀ c, (rowEntries r c row).length = row.length := by
  induction row with
  | nil => intro c; rfl
  | cons v row ih =>
    intro c
    show (rowEntries r (c + 1) row).length + 1 = row.length + 1
    rw [ih]

theorem mem_rowEntries_iff (r : ℕ) (row : List String) :
    ∀ (c : ℕ) (a b : ℤ) (v : String),
      ((a, b), v) ∈ rowEntries r c row ↔
        ∃ cn, cn < row.length ∧ a = (r : ℤ) ∧ b = ((c + cn : ℕ) : ℤ) ∧
          row.getD cn "" = v := by
  induction row with
  | nil => intro c a b v; simp [rowEntries]
  | cons v0 row ih =>
    intro c a b v
    simp only [rowEntries, List.mem_cons, ih (c + 1)]
    constructor
    · rintro (heq | ⟨cn, hcn, ha, hb, hv⟩)
      · obtain ⟨⟨ha, hb⟩, hv⟩ : (a = (r : ℤ) ∧ b = (c : ℤ)) ∧ v = v0 := by
          simpa [Prod.ext_iff] using heq
        exact ⟨0, by simp, ha, by simpa using hb, by simpa using hv.symm⟩
      · refine ⟨cn + 1, by simpa using Nat.succ_lt_succ hcn, ha, ?_, by simpa using hv⟩
        rw [hb]
        congr 1
        omega
    · rintro ⟨cn, hcn, ha, hb, hv⟩
      match cn with
      | 0 =>
        left
        simp only [List.getD_cons_zero] at hv
        simp [Prod.ext_iff, ha, hb, hv.symm]
      | cn + 1 =>
        right
        refine ⟨cn, by simpa using hcn, ha, ?_, by simpa using hv⟩
        rw [hb]
        congr 1
        omega

theorem toDictFrom_length (g : List (List String)) :
    ∀ s, (toDictFrom s g).length = (g.map List.length).sum := by
  induction g with
  | nil => intro s; rfl
  | cons row g ih =>
    intro s
    show (rowEntries s 0 row ++ toDictFrom (s + 1) g).length = _
    rw [List.length_append, rowEntries_length, ih]
    simp

theorem mem_toDictFrom_iff (g : List (List String)) :
    ∀ (s : ℕ) (a b : ℤ) (v : String),
      ((a, b), v) ∈ toDictFrom s g ↔
        ∃ rn cn, rn < g.length ∧ cn < (g.getD rn []).length ∧
          a = ((s + rn : ℕ) : ℤ) ∧ b = (cn : ℤ) ∧ (g.getD rn []).getD cn "" = v := by
  induction g with
  | nil => intro s a b v; simp [toDictFrom]
  | cons row g ih =>
    intro s a b v
    show ((a, b), v) ∈ rowEntries s 0 row ++ toDictFrom (s + 1) g ↔ _
    rw [List.mem_append, mem_rowEntries_iff, ih (s + 1)]
    constructor
    · rintro (⟨cn, hcn, ha, hb, hv⟩ | ⟨rn, cn, h1, h2, ha, hb, hv⟩)
      · exact ⟨0, cn, by simp, by simpa using hcn, by simpa using ha,
          by simpa using hb, by simpa using hv⟩
      · refine ⟨rn + 1, cn, by simpa using Nat.succ_lt_succ h1, by simpa using h2,
          ?_, hb, by simpa using hv⟩
        rw [ha]
        congr 1
        omega
    · rintro ⟨rn, cn, h1, h2, ha, hb, hv⟩
      match rn with
      | 0 =>
        left
        exact ⟨cn, by simpa using h2, by simpa using ha, by simpa using hb,
          by simpa using hv⟩
      | rn + 1 =>
        right
        refine ⟨rn, cn, by simpa using h1, by simpa using h2, ?_, hb, by simpa using hv⟩
        rw [ha]
        congr 1
        omega

theorem toDict_length (g : List (List String)) :
    (toDict g).length = (g.map List.length).sum :=
  toDictFrom_length g 0

theorem mem_toDict_iff (g : List (List String)) (a b : ℤ) (v : String) :
    ((a, b), v) ∈ toDict g ↔
      ∃ rn cn, rn < g.length ∧ cn < (g.getD rn []).length ∧
        a = (rn : ℤ) ∧ b = (cn : ℤ) ∧ (g.getD rn []).getD cn "" = v := by
  rw [toDict, mem_toDictFrom_iff]
  simp

/-! ### Closed forms of the reshaping loops -/

theorem rowMajorGrid_nil (nc : ℕ) : rowMajorGrid nc [] = [] := by
  simp [rowMajorGrid, rowsCount]

theorem colMajorGrid_nil (nr : ℕ) : colMajorGrid nr [] = [] := by
  simp [colMajorGrid]

theorem rowMajorGrid_length (nc : ℕ) (ls : List String) :
    (rowMajorGrid nc ls).length = rowsCount nc ls.length := by
  simp [rowMajorGrid]

theorem colMajorGrid_length (nr : ℕ) (ls : List String) :
    (colMajorGrid nr ls).length = min ls.length nr := by
  simp [colMajorGrid]

theorem rowMajorGrid_ne_nil (nc : ℕ) (ls : List String)
    (hls : ls ≠ []) : rowMajorGrid nc ls ≠ [] := by
  have hlen : 0 < ls.length := List.length_pos.mpr hls
  have : 0 < rowsCount nc ls.length := by
    rw [rowsCount]
    rw [List.countP_pos_iff]
    exact ⟨0, List.mem_range.mpr hlen, by simp⟩
  apply List.ne_nil_of_length_pos
  rw [rowMajorGrid_length]
  exact this

theorem colMajorGrid_getD (nr : ℕ) (ls : List String) (r : ℕ)
    (h : r < min ls.length nr) :
    (colMajorGrid nr ls).getD r [] =
      (List.range (colRowLen nr r ls.length)).map (fun j => ls.getD (r + j * nr) "") := by
  have hlen : r < ((List.range (min ls.length nr)).map
      (fun r => (List.range (colRowLen nr r ls.length)).map
        (fun j => ls.getD (r + j * nr) ""))).length := by simpa using h
  rw [colMajorGrid, List.getD_eq_getElem _ [] hlen, List.getElem_map, List.getElem_range]

/-- Stability of the referenced labels under appending one more: every index
actually referenced by row `r` lies below `ks.length`. -/
theorem colRow_elems_stable (nr r : ℕ) (h : 0 < nr) (hr : r < nr) (ks : List String)
    (l : String) (n : ℕ) (hn : n ≤ colRowLen nr r ks.length) :
    (List.range n).map (fun j => (ks ++ [l]).getD (r + j * nr) "") =
      (List.range n).map (fun j => ks.getD (r + j * nr) "") := by
  apply List.map_congr_left
  intro j hj
  rw [List.mem_range] at hj
  have hidx : r + j * nr < ks.length :=
    index_lt_of_lt_colRowLen nr r ks.length j h hr (by omega)
  exact getD_append_lt ks [l] _ "" hidx

/-- Appending one label to the column-major grid: a new single-label row if
we are still in the first column, otherwise an append to row `k % nr`. -/
theorem colGrid_concat (nr : ℕ) (h : 0 < nr) (ks : List String) (l : String) :
    colMajorGrid nr (ks ++ [l]) =
      if ks.length < nr then colMajorGrid nr ks ++ [[l]]
      else appendAt (colMajorGrid nr ks) (ks.length % nr) l := by
  have hlen : (ks ++ [l]).length = ks.length + 1 := by simp
  by_cases hk : ks.length < nr
  · rw [if_pos hk]
    have hmin1 : min (ks.length + 1) nr = ks.length + 1 := by omega
    have hmin0 : min ks.length nr = ks.length := by omega
    have hmod : ks.length % nr = ks.length := Nat.mod_eq_of_lt hk
    rw [colMajorGrid, colMajorGrid, hlen, hmin1, hmin0, List.range_succ,
      List.map_append]
    congr 1
    · apply List.map_congr_left
      intro r hrm
      rw [List.mem_range] at hrm
      have hr : r < nr := by omega
      have hstep : colRowLen nr r (ks.length + 1) = colRowLen nr r ks.length := by
        rw [colRowLen_succ]
        have : ¬(ks.length % nr = r) := by omega
        simp [this]
      rw [hstep]
      exact colRow_elems_stable nr r h hr ks l _ (le_refl _)
    · -- the new row `ks.length` holds exactly the new label
      have hclen0 : colRowLen nr ks.length ks.length = 0 := by
        rw [colRowLen, countP_mod_range nr h _ hk]
        have : ks.length / nr = 0 := Nat.div_eq_of_lt hk
        have hm : ks.length % nr = ks.length := Nat.mod_eq_of_lt hk
        simp [this, hm]
      have hclen1 : colRowLen nr ks.length (ks.length + 1) = 1 := by
        rw [colRowLen_succ, hclen0]
        simp [Nat.mod_eq_of_lt hk]
      simp only [List.map_cons, List.map_nil, hclen1]
      rw [show List.range 1 = [0] from rfl]
      simp only [List.map_cons, List.map_nil, Nat.zero_mul, Nat.add_zero]
      rw [getD_concat_length]
  · rw [if_neg hk]
    push_neg at hk
    have hmin1 : min (ks.length + 1) nr = nr := by omega
    have hmin0 : min ks.length nr = nr := by omega
    have hr0 : ks.length % nr < nr := Nat.mod_lt _ h
    apply List.ext_getElem
    · rw [appendAt_length, colMajorGrid_length, colMajorGrid_length, hlen, hmin0, hmin1]
    · intro r h1 h2
      have hrnr : r < nr := by
        have := h1
        rw [colMajorGrid_length, hlen, hmin1] at this
        exact this
      have hglen : r < (colMajorGrid nr ks).length := by
        rw [colMajorGrid_length, hmin0]; exact hrnr
      -- left side: row `r` of the extended grid
      have hleft : (colMajorGrid nr (ks ++ [l]))[r] =
          (List.range (colRowLen nr r (ks.length + 1))).map
            (fun j => (ks ++ [l]).getD (r + j * nr) "") := by
        have hb : r < (List.range (min (ks ++ [l]).length nr)).length := by
          simpa [hlen, hmin1] using hrnr
        simp only [colMajorGrid, List.getElem_map, List.getElem_range, hlen]
      -- right side: `set` at `ks.length % nr`
      rw [hleft]
      simp only [appendAt]
      rw [List.getElem_set]
      by_cases hreq : ks.length % nr = r
      · rw [if_pos hreq]
        subst hreq
        have hself : colRowLen nr (ks.length % nr) ks.length = ks.length / nr :=
          colRowLen_self nr ks.length h
        have hstep : colRowLen nr (ks.length % nr) (ks.length + 1) =
            ks.length / nr + 1 := by
          rw [colRowLen_succ, hself]
          simp
        rw [hstep, List.range_succ, List.map_append]
        have hgd : (colMajorGrid nr ks).getD (ks.length % nr) [] =
            (List.range (colRowLen nr (ks.length % nr) ks.length)).map
              (fun j => ks.getD (ks.length % nr + j * nr) "") := by
          apply colMajorGrid_getD
          omega
        rw [colRow_elems_stable nr _ h hr0 ks l _ hself.ge]
        rw [hself] at hgd
        rw [← hgd]
        congr 1
        simp only [List.map_cons, List.map_nil]
        have hidx : ks.length % nr + ks.length / nr * nr = ks.length := by
          have := Nat.div_add_mod ks.length nr
          have hc : ks.length / nr * nr = nr * (ks.length / nr) := Nat.mul_comm ..
          omega
        rw [hidx, getD_concat_length]
      · rw [if_neg hreq]
        have hstep : colRowLen nr r (ks.length + 1) = colRowLen nr r ks.length := by
          rw [colRowLen_succ]
          simp [hreq]
        rw [hstep, colRow_elems_stable nr r h hrnr ks l _ (le_refl _)]
        have hb2 : r < (List.range (min ks.length nr)).length := by
          simpa [hmin0] using hrnr
        simp only [colMajorGrid, List.getElem_map, List.getElem_range]

/-- Appending one label to the row-major grid: a fresh single-label row when
the previous row is full (`k % nc = 0`), otherwise an append to the last
row. The `if` mirrors the `col == 0` test of the loop. -/
theorem rowGrid_concat (nc : ℕ) (h : 0 < nc) (ks : List String) (l : String) :
    rowMajorGrid nc (ks ++ [l]) =
      appendLast (if ks.length % nc = 0 then rowMajorGrid nc ks ++ [[]]
        else rowMajorGrid nc ks) l := by
  have hlen : (ks ++ [l]).length = ks.length + 1 := by simp
  by_cases hmod : ks.length % nc = 0
  · have hdvd : nc ∣ ks.length := Nat.dvd_of_mod_eq_zero hmod
    have hR : rowsCount nc ks.length = ks.length / nc := by
      rw [rowsCount_eq nc h]
      simp [hmod]
    have hR1 : rowsCount nc (ks.length + 1) = ks.length / nc + 1 := by
      rw [rowsCount_succ, hR]
      simp [hmod]
    rw [if_pos hmod, appendLast_concat]
    rw [rowMajorGrid, rowMajorGrid, hlen, hR1, hR, List.range_succ, List.map_append]
    congr 1
    · apply List.map_congr_left
      intro r hr
      rw [List.mem_range] at hr
      have hfull : (r + 1) * nc ≤ ks.length := by
        have h2 : (r + 1) * nc ≤ ks.length / nc * nc :=
          Nat.mul_le_mul_right nc (by omega)
        have h3 : ks.length / nc * nc = ks.length := Nat.div_mul_cancel hdvd
        omega
      have hsm : (r + 1) * nc = r * nc + nc := Nat.succ_mul ..
      rw [drop_append_le _ _ _ (by omega)]
      rw [take_append_le _ _ _ (by rw [List.length_drop]; omega)]
    · have hd : ks.length / nc * nc = ks.length := Nat.div_mul_cancel hdvd
      simp only [List.map_cons, List.map_nil, hd]
      rw [drop_append_le _ _ _ (le_refl _), List.drop_length, List.nil_append]
      rw [List.take_of_length_le (by simpa using h)]
  · have hk0 : ks.length ≠ 0 := by
      intro h0
      rw [h0] at hmod
      exact hmod (Nat.zero_mod nc)
    have hR : rowsCount nc ks.length = ks.length / nc + 1 := by
      rw [rowsCount_eq nc h]
      simp [Nat.pos_of_ne_zero hmod]
    have hR1 : rowsCount nc (ks.length + 1) = ks.length / nc + 1 := by
      rw [rowsCount_succ, hR]
      simp [hmod]
    rw [if_neg hmod]
    rw [rowMajorGrid, rowMajorGrid, hlen, hR1, hR, List.range_succ, List.map_append,
      List.map_append]
    simp only [List.map_cons, List.map_nil]
    rw [appendLast_concat]
    have hdm : nc * (ks.length / nc) + ks.length % nc = ks.length :=
      Nat.div_add_mod ks.length nc
    have hmlt : ks.length % nc < nc := Nat.mod_lt _ h
    have hmc : ks.length / nc * nc = nc * (ks.length / nc) := Nat.mul_comm ..
    congr 1
    · apply List.map_congr_left
      intro r hr
      rw [List.mem_range] at hr
      have hfull : (r + 1) * nc ≤ ks.length := by
        have h2 : (r + 1) * nc ≤ ks.length / nc * nc :=
          Nat.mul_le_mul_right nc (by omega)
        omega
      have hsm : (r + 1) * nc = r * nc + nc := Nat.succ_mul ..
      rw [drop_append_le _ _ _ (by omega)]
      rw [take_append_le _ _ _ (by rw [List.length_drop]; omega)]
    · have hle : ks.length / nc * nc ≤ ks.length := by omega
      rw [drop_append_le _ _ _ hle]
      have hdl : (ks.drop (ks.length / nc * nc)).length = ks.length % nc := by
        rw [List.length_drop]
        omega
      rw [List.take_of_length_le (by rw [List.length_append, hdl]; simp; omega)]
      rw [List.take_of_length_le (by rw [hdl]; omega)]

/-! ### The loops compute the closed forms -/

theorem rowStep_spec (nc : ℕ) (h : 0 < nc) (ks : List String) (l : String) :
    rowStep nc (rowMajorGrid nc ks, colSpec nc ks.length) l =
      (rowMajorGrid nc (ks ++ [l]), colSpec nc (ks.length + 1)) := by
  have hcol := colSpec_step nc ks.length h
  simp only [rowStep, hcol]
  rw [rowGrid_concat nc h, colSpec_succ]

theorem foldl_rowStep (nc : ℕ) (h : 0 < nc) (rest : List String) :
    ∀ ks : List String,
      rest.foldl (rowStep nc) (rowMajorGrid nc ks, colSpec nc ks.length) =
        (rowMajorGrid nc (ks ++ rest), colSpec nc (ks ++ rest).length) := by
  induction rest with
  | nil => intro ks; simp
  | cons l rest ih =>
    intro ks
    rw [List.foldl_cons, rowStep_spec nc h,
      show ks.length + 1 = (ks ++ [l]).length by simp, ih (ks ++ [l])]
    simp

theorem row_major_2d_eq (nc : ℕ) (h : 0 < nc) (ls : List String) :
    row_major_2d nc ls = rowMajorGrid nc ls := by
  have h0 : (([], 0) : List (List String) × ℕ) =
      (rowMajorGrid nc [], colSpec nc ([] : List String).length) := by
    rw [rowMajorGrid_nil]
    rfl
  rw [row_major_2d, h0, foldl_rowStep nc h]
  simp

theorem colStep_flag (nr k : ℕ) (h : 0 < nr) :
    (if colSpec nr k = nr then false else decide (k ≤ nr)) = decide (k + 1 ≤ nr) := by
  match k with
  | 0 =>
    rw [colSpec_zero]
    have h1 : ¬(0 = nr) := by omega
    simp only [if_neg h1, decide_eq_decide]
    omega
  | j + 1 =>
    rw [colSpec_succ]
    by_cases hc : j % nr + 1 = nr
    · rw [if_pos hc]
      have hle : ¬(j + 1 + 1 ≤ nr) := by
        have := Nat.mod_le j nr
        omega
      simp [hle]
    · rw [if_neg hc, decide_eq_decide]
      have hml : j % nr < nr := Nat.mod_lt _ h
      constructor
      · intro hle
        have hj : j < nr := by omega
        have := Nat.mod_eq_of_lt hj
        omega
      · omega

theorem colStep_spec (nr : ℕ) (h : 0 < nr) (ks : List String) (l : String) :
    colStep nr (colMajorGrid nr ks, colSpec nr ks.length, decide (ks.length ≤ nr)) l =
      (colMajorGrid nr (ks ++ [l]), colSpec nr (ks.length + 1),
        decide (ks.length + 1 ≤ nr)) := by
  have hrow := colSpec_step nr ks.length h
  have hflag := colStep_flag nr ks.length h
  simp only [colStep, hrow, hflag]
  rw [colGrid_concat nr h, colSpec_succ]
  by_cases hk : ks.length < nr
  · have hfc : (decide (ks.length + 1 ≤ nr)) = true := by
      simp
      omega
    have hglen : (colMajorGrid nr ks).length = ks.length := by
      rw [colMajorGrid_length]
      omega
    rw [if_pos hk]
    simp only [hfc, if_true]
    rw [Nat.mod_eq_of_lt hk, ← hglen, appendAt_concat]
    simp
  · have hfc : (decide (ks.length + 1 ≤ nr)) = false := by
      simp
      omega
    rw [if_neg hk]
    simp only [hfc, Bool.false_eq_true, if_false]

theorem foldl_colStep (nr : ℕ) (h : 0 < nr) (rest : List String) :
    ∀ ks : List String,
      rest.foldl (colStep nr)
          (colMajorGrid nr ks, colSpec nr ks.length, decide (ks.length ≤ nr)) =
        (colMajorGrid nr (ks ++ rest), colSpec nr (ks ++ rest).length,
          decide ((ks ++ rest).length ≤ nr)) := by
  induction rest with
  | nil => intro ks; simp
  | cons l rest ih =>
    intro ks
    rw [List.foldl_cons, colStep_spec nr h,
      show ks.length + 1 = (ks ++ [l]).length by simp, ih (ks ++ [l])]
    simp

theorem col_major_2d_eq (nr : ℕ) (h : 0 < nr) (ls : List String) :
    col_major_2d nr ls = colMajorGrid nr ls := by
  have h0 : (([], 0, true) : List (List String) × ℕ × Bool) =
      (colMajorGrid nr [], colSpec nr ([] : List String).length,
        decide (([] : List String).length ≤ nr)) := by
    rw [colMajorGrid_nil]
    simp [colSpec]
  rw [col_major_2d, h0, foldl_colStep nr h]
  simp

/-! ### The dictionaries produced from the reshaped grids -/

theorem rowMajorGrid_getD (nc : ℕ) (ls : List String) (r : ℕ)
    (h : r < rowsCount nc ls.length) :
    (rowMajorGrid nc ls).getD r [] = (ls.drop (r * nc)).take nc := by
  have hlen : r < ((List.range (rowsCount nc ls.length)).map
      (fun r => (ls.drop (r * nc)).take nc)).length := by simpa using h
  rw [rowMajorGrid, List.getD_eq_getElem _ [] hlen, List.getElem_map, List.getElem_range]

theorem sum_map_length_rowMajorGrid (nc : ℕ) (h : 0 < nc) (ls : List String) :
    ((rowMajorGrid nc ls).map List.length).sum = ls.length := by
  induction ls using List.reverseRecOn with
  | nil => simp [rowMajorGrid_nil]
  | append_singleton ks l ih =>
    rw [rowGrid_concat nc h]
    by_cases hmod : ks.length % nc = 0
    · rw [if_pos hmod, sum_map_length_appendLast _ _ (by simp)]
      simp [ih]
    · have hne : ks ≠ [] := by
        intro hnil
        rw [hnil] at hmod
        exact hmod (Nat.zero_mod nc)
      rw [if_neg hmod, sum_map_length_appendLast _ _ (rowMajorGrid_ne_nil nc ks hne)]
      simp [ih]

theorem sum_map_length_colMajorGrid (nr : ℕ) (h : 0 < nr) (ls : List String) :
    ((colMajorGrid nr ls).map List.length).sum = ls.length := by
  induction ls using List.reverseRecOn with
  | nil => simp [colMajorGrid_nil]
  | append_singleton ks l ih =>
    rw [colGrid_concat nr h]
    by_cases hk : ks.length < nr
    · rw [if_pos hk]
      simp [ih]
    · have hidx : ks.length % nr < (colMajorGrid nr ks).length := by
        rw [colMajorGrid_length]
        have := Nat.mod_lt ks.length h
        omega
      rw [if_neg hk, sum_map_length_appendAt _ _ _ hidx]
      simp [ih]

/-- Comparing `i < L` positionwise through division and remainder by `n`. -/
theorem div_lt_aux (n : ℕ) (_h : 0 < n) (i L : ℕ) (hi : i < L) :
    i / n < L / n ∨ (i / n = L / n ∧ i % n < L % n) := by
  have hdi : n * (i / n) + i % n = i := Nat.div_add_mod i n
  have hdL : n * (L / n) + L % n = L := Nat.div_add_mod L n
  have h1 : i / n ≤ L / n := Nat.div_le_div_right (le_of_lt hi)
  rcases Nat.eq_or_lt_of_le h1 with heq | hlt
  · right
    refine ⟨heq, ?_⟩
    rw [heq] at hdi
    omega
  · left
    exact hlt

/-- The entry of the row-major dictionary for input index `i`. -/
theorem mem_toDict_rowMajorGrid (nc : ℕ) (h : 0 < nc) (ls : List String) (i : ℕ)
    (hi : i < ls.length) :
    ((((i / nc : ℕ) : ℤ), ((i % nc : ℕ) : ℤ)), ls.getD i "") ∈
      toDict (rowMajorGrid nc ls) := by
  have hdi : nc * (i / nc) + i % nc = i := Nat.div_add_mod i nc
  have hmlt : i % nc < nc := Nat.mod_lt _ h
  have hmc : i / nc * nc = nc * (i / nc) := Nat.mul_comm ..
  have hrn : i / nc < rowsCount nc ls.length := by
    rw [rowsCount_eq nc h]
    rcases div_lt_aux nc h i ls.length hi with hlt | ⟨heq, hm⟩ <;> split_ifs <;> omega
  have hrow : (rowMajorGrid nc ls).getD (i / nc) [] =
      (ls.drop (i / nc * nc)).take nc := rowMajorGrid_getD nc ls _ hrn
  have hcn : i % nc < ((ls.drop (i / nc * nc)).take nc).length := by
    rw [List.length_take, List.length_drop]
    omega
  rw [mem_toDict_iff]
  refine ⟨i / nc, i % nc, ?_, ?_, rfl, rfl, ?_⟩
  · rw [rowMajorGrid_length]
    exact hrn
  · rw [hrow]
    exact hcn
  · rw [hrow, List.getD_eq_getElem?_getD, List.getElem?_take, if_pos hmlt,
      List.getElem?_drop]
    have hidx : i / nc * nc + i % nc = i := by omega
    rw [hidx, ← List.getD_eq_getElem?_getD]

/-- Conversely, every entry of the row-major dictionary comes from an input
index `i < L` placed at `(i / nc, i % nc)`. -/
theorem toDict_rowMajorGrid_complete (nc : ℕ) (h : 0 < nc) (ls : List String)
    (kv : (ℤ × ℤ) × String) (hkv : kv ∈ toDict (rowMajorGrid nc ls)) :
    ∃ i, ∃ _ : i < ls.length,
      kv = ((((i / nc : ℕ) : ℤ), ((i % nc : ℕ) : ℤ)), ls.getD i "") := by
  obtain ⟨⟨a, b⟩, v⟩ := kv
  rw [mem_toDict_iff] at hkv
  obtain ⟨rn, cn, h1, h2, ha, hb, hv⟩ := hkv
  rw [rowMajorGrid_length] at h1
  rw [rowMajorGrid_getD nc ls rn h1, List.length_take, List.length_drop] at h2
  have hcnc : cn < nc := by omega
  have hiL : rn * nc + cn < ls.length := by omega
  refine ⟨rn * nc + cn, hiL, ?_⟩
  have hdiv : (rn * nc + cn) / nc = rn := by
    rw [Nat.add_comm, Nat.add_mul_div_right _ _ h, Nat.div_eq_of_lt hcnc]
    omega
  have hmod : (rn * nc + cn) % nc = cn := by
    rw [Nat.add_comm, Nat.add_mul_mod_self_right, Nat.mod_eq_of_lt hcnc]
  rw [hdiv, hmod, ha, hb]
  have hval : (ls.drop (rn * nc)).take nc = (rowMajorGrid nc ls).getD rn [] :=
    (rowMajorGrid_getD nc ls rn h1).symm
  have hswap : ((ls.drop (rn * nc)).take nc).getD cn "" = ls.getD (rn * nc + cn) "" := by
    rw [List.getD_eq_getElem?_getD, List.getElem?_take, if_pos hcnc,
      List.getElem?_drop, ← List.getD_eq_getElem?_getD]
  rw [← hv, ← hval, hswap]

/-- The entry of the column-major dictionary for input index `i`. -/
theorem mem_toDict_colMajorGrid (nr : ℕ) (h : 0 < nr) (ls : List String) (i : ℕ)
    (hi : i < ls.length) :
    ((((i % nr : ℕ) : ℤ), ((i / nr : ℕ) : ℤ)), ls.getD i "") ∈
      toDict (colMajorGrid nr ls) := by
  have hdi : nr * (i / nr) + i % nr = i := Nat.div_add_mod i nr
  have hmlt : i % nr < nr := Nat.mod_lt _ h
  have hmc : i / nr * nr = nr * (i / nr) := Nat.mul_comm ..
  have hrn : i % nr < min ls.length nr := by
    have := Nat.mod_le i nr
    omega
  have hcn : i / nr < colRowLen nr (i % nr) ls.length := by
    rw [colRowLen, countP_mod_range nr h _ hmlt]
    rcases div_lt_aux nr h i ls.length hi with hlt | ⟨heq, hm⟩ <;> split_ifs <;> omega
  have hrow := colMajorGrid_getD nr ls (i % nr) hrn
  rw [mem_toDict_iff]
  refine ⟨i % nr, i / nr, ?_, ?_, rfl, rfl, ?_⟩
  · rw [colMajorGrid_length]
    exact hrn
  · rw [hrow]
    simpa using hcn
  · rw [hrow]
    have hb : i / nr < ((List.range (colRowLen nr (i % nr) ls.length)).map
        (fun j => ls.getD (i % nr + j * nr) "")).length := by simpa using hcn
    rw [List.getD_eq_getElem _ "" hb, List.getElem_map, List.getElem_range]
    have hidx : i % nr + i / nr * nr = i := by omega
    rw [hidx]

/-- Conversely, every entry of the column-major dictionary comes from an
input index `i < L` placed at `(i % nr, i / nr)`. -/
theorem toDict_colMajorGrid_complete (nr : ℕ) (h : 0 < nr) (ls : List String)
    (kv : (ℤ × ℤ) × String) (hkv : kv ∈ toDict (colMajorGrid nr ls)) :
    ∃ i, ∃ _ : i < ls.length,
      kv = ((((i % nr : ℕ) : ℤ), ((i / nr : ℕ) : ℤ)), ls.getD i "") := by
  obtain ⟨⟨a, b⟩, v⟩ := kv
  rw [mem_toDict_iff] at hkv
  obtain ⟨rn, cn, h1, h2, ha, hb, hv⟩ := hkv
  rw [colMajorGrid_length] at h1
  have hrnr : rn < nr := by omega
  rw [colMajorGrid_getD nr ls rn h1] at h2 hv
  rw [List.length_map, List.length_range] at h2
  have hiL : rn + cn * nr < ls.length :=
    index_lt_of_lt_colRowLen nr rn ls.length cn h hrnr h2
  refine ⟨rn + cn * nr, hiL, ?_⟩
  have hmod : (rn + cn * nr) % nr = rn := by
    rw [Nat.add_mul_mod_self_right, Nat.mod_eq_of_lt hrnr]
  have hdiv : (rn + cn * nr) / nr = cn := by
    rw [Nat.add_mul_div_right _ _ h, Nat.div_eq_of_lt hrnr]
    omega
  rw [hmod, hdiv, ha, hb]
  have hb2 : cn < ((List.range (colRowLen nr rn ls.length)).map
      (fun j => ls.getD (rn + j * nr) "")).length := by simpa using h2
  rw [List.getD_eq_getElem _ "" hb2, List.getElem_map, List.getElem_range] at hv
  rw [hv]

/-! ### Facts about `normalize_labels` -/

theorem normalize_flat_nil (p : Parameters) (ob : Option String) :
    normalize_labels (.flat []) ob p = .ok [] := rfl

theorem pos_dims_of_flat (p : Parameters) (ls : List String) (hne : ls ≠ [])
    (hlen : ls.length ≤ p.num_rows * p.num_cols) :
    0 < p.num_rows ∧ 0 < p.num_cols := by
  have h1 : 0 < ls.length := List.length_pos.mpr hne
  refine ⟨?_, ?_⟩
  · rcases Nat.eq_zero_or_pos p.num_rows with h0 | h
    · rw [h0, Nat.zero_mul] at hlen
      omega
    · exact h
  · rcases Nat.eq_zero_or_pos p.num_cols with h0 | h
    · rw [h0, Nat.mul_zero] at hlen
      omega
    · exact h

theorem normalize_flat_row (p : Parameters) (ls : List String) (ob : Option String)
    (hob : ob = none ∨ ob = some "row")
    (hlen : ls.length ≤ p.num_rows * p.num_cols) :
    normalize_labels (.flat ls) ob p = .ok (toDict (rowMajorGrid p.num_cols ls)) := by
  rcases eq_or_ne ls [] with hnil | hne
  · subst hnil
    rw [normalize_flat_nil, rowMajorGrid_nil]
    rfl
  · obtain ⟨hnr, hnc⟩ := pos_dims_of_flat p ls hne hlen
    have hlen0 : ¬(ls.length = 0) := by
      simpa using hne
    have hle : ¬(ls.length > p.num_cols * p.num_rows) := by
      rw [Nat.mul_comm]
      omega
    rcases hob with hcase | hcase <;> subst hcase <;>
      simp [normalize_labels, hlen0, hle, row_major_2d_eq p.num_cols hnc]

theorem normalize_flat_col (p : Parameters) (ls : List String)
    (hlen : ls.length ≤ p.num_rows * p.num_cols) :
    normalize_labels (.flat ls) (some "col") p =
      .ok (toDict (colMajorGrid p.num_rows ls)) := by
  rcases eq_or_ne ls [] with hnil | hne
  · subst hnil
    rw [normalize_flat_nil, colMajorGrid_nil]
    rfl
  · obtain ⟨hnr, hnc⟩ := pos_dims_of_flat p ls hne hlen
    have hlen0 : ¬(ls.length = 0) := by
      simpa using hne
    have hle : ¬(ls.length > p.num_cols * p.num_rows) := by
      rw [Nat.mul_comm]
      omega
    simp [normalize_labels, hlen0, hle, col_major_2d_eq p.num_rows hnr]

theorem normalize_flat_too_long (p : Parameters) (ls : List String)
    (ob : Option String) (hlen : p.num_rows * p.num_cols + 1 ≤ ls.length) :
    normalize_labels (.flat ls) ob p = .error (.tooManyItems ls.length) := by
  have hlen0 : ¬(ls.length = 0) := by omega
  have hgt : ls.length > p.num_cols * p.num_rows := by
    rw [Nat.mul_comm]
    omega
  simp [normalize_labels, hlen0, hgt]

theorem check_bounds_eq_none (entries : List ((ℤ × ℤ) × String)) (nr nc : ℕ)
    (h : ∀ kv ∈ entries,
      (0:ℤ) ≤ kv.1.1 ∧ kv.1.1 < (nr : ℤ) ∧ (0:ℤ) ≤ kv.1.2 ∧ kv.1.2 < (nc : ℤ)) :
    check_bounds entries nr nc = none := by
  induction entries with
  | nil => rfl
  | cons kv rest ih =>
    obtain ⟨⟨row, col⟩, v⟩ := kv
    have hh := h _ (List.mem_cons_self ..)
    have h1 : (0:ℤ) ≤ row ∧ row < (nr : ℤ) := ⟨hh.1, hh.2.1⟩
    have h2 : (0:ℤ) ≤ col ∧ col < (nc : ℤ) := ⟨hh.2.2.1, hh.2.2.2⟩
    have hrest := ih (fun kv hkv => h kv (List.mem_cons_of_mem _ hkv))
    simp [check_bounds, h1, h2, hrest]

theorem check_bounds_eq_some (entries : List ((ℤ × ℤ) × String)) (nr nc : ℕ)
    (hbad : ∃ kv ∈ entries,
      ¬((0:ℤ) ≤ kv.1.1 ∧ kv.1.1 < (nr : ℤ) ∧ (0:ℤ) ≤ kv.1.2 ∧ kv.1.2 < (nc : ℤ))) :
    ∃ e, check_bounds entries nr nc = some e ∧
      ((∃ kv ∈ entries, e = .outOfBoundsRow kv.1.1 nr ∧
          ¬((0:ℤ) ≤ kv.1.1 ∧ kv.1.1 < (nr : ℤ))) ∨
       (∃ kv ∈ entries, e = .outOfBoundsCol kv.1.2 nc ∧
          ¬((0:ℤ) ≤ kv.1.2 ∧ kv.1.2 < (nc : ℤ)))) := by
  induction entries with
  | nil => simp at hbad
  | cons kv rest ih =>
    obtain ⟨⟨row, col⟩, v⟩ := kv
    by_cases h1 : (0:ℤ) ≤ row ∧ row < (nr : ℤ)
    · by_cases h2 : (0:ℤ) ≤ col ∧ col < (nc : ℤ)
      · have hbad' : ∃ kv ∈ rest,
            ¬((0:ℤ) ≤ kv.1.1 ∧ kv.1.1 < (nr : ℤ) ∧
              (0:ℤ) ≤ kv.1.2 ∧ kv.1.2 < (nc : ℤ)) := by
          rcases hbad with ⟨kv', hmem, hns⟩
          rcases List.mem_cons.mp hmem with heq | hm
          · exfalso
            rw [heq] at hns
            exact hns ⟨h1.1, h1.2, h2.1, h2.2⟩
          · exact ⟨kv', hm, hns⟩
        obtain ⟨e, he, hw⟩ := ih hbad'
        refine ⟨e, by simp [check_bounds, h1, h2, he], ?_⟩
        rcases hw with ⟨kv', hm, hp⟩ | ⟨kv', hm, hp⟩
        · exact Or.inl ⟨kv', List.mem_cons_of_mem _ hm, hp⟩
        · exact Or.inr ⟨kv', List.mem_cons_of_mem _ hm, hp⟩
      · exact ⟨.outOfBoundsCol col nc, by simp [check_bounds, h1, h2],
          Or.inr ⟨((row, col), v), List.mem_cons_self .., rfl, h2⟩⟩
    · exact ⟨.outOfBoundsRow row nr, by simp [check_bounds, h1],
        Or.inl ⟨((row, col), v), List.mem_cons_self .., rfl, h1⟩⟩

theorem normalize_dict_ok (p : Parameters) (entries : List ((ℤ × ℤ) × String))
    (h : ∀ kv ∈ entries, inBounds p kv.1) :
    normalize_labels (.dict entries) none p = .ok entries := by
  have hcb := check_bounds_eq_none entries p.num_rows p.num_cols
    (fun kv hkv => h kv hkv)
  simp [normalize_labels, hcb]

/-! ### Whitespace stripping -/

theorem strip_eq_nil (l : List Char) (h : ∀ c ∈ l, c.isWhitespace) : strip l = [] := by
  have h1 : l.dropWhile Char.isWhitespace = [] := List.dropWhile_eq_nil_iff.mpr h
  unfold strip
  rw [h1]
  rfl

/-! ### Extension dispatch -/

theorem not_pdf_and_svg (fn : List Char) (h1 : lowerEndsWith fn ".pdf".toList = true)
    (h2 : lowerEndsWith fn ".svg".toList = true) : False := by
  simp only [lowerEndsWith, decide_eq_true_eq] at h1 h2
  obtain ⟨hl1, he1⟩ := h1
  obtain ⟨hl2, he2⟩ := h2
  have e1 : (".pdf".toList : List Char).length = 4 := rfl
  have e2 : (".svg".toList : List Char).length = 4 := rfl
  rw [e1] at he1
  rw [e2] at he2
  exact absurd (he1.symm.trans he2) (by decide)

/-! ### The claims -/

/-- Claim C1 (settled as a code bug): the claimed pixel-center formula
`y = y_offset + (num_rows - row - 1) * y_multiplier` disagrees with
`y_pixels_of`, which multiplies by `x_multiplier` (labelator.py line 278):
on a sheet with `x_multiplier = 1`, `y_multiplier = 2`, `num_rows = 2`, the
code places row 0 at `y = 1` while the claimed formula gives `y = 2`.  The
`x` formula agrees.  `y_multiplier` is documented as the vertical spacing
and is never read, so the code contradicts its own documentation. -/
theorem claim_C1_code_divergence :
    x_pixels_of 1 paramsC1 = paramsC1.x_offset + 1 * paramsC1.x_multiplier ∧
    y_pixels_of 0 paramsC1 = 1 ∧
    paramsC1.y_offset + ((paramsC1.num_rows : ℚ) - 0 - 1) * paramsC1.y_multiplier = 2 ∧
    y_pixels_of 0 paramsC1 ≠
      paramsC1.y_offset + ((paramsC1.num_rows : ℚ) - 0 - 1) * paramsC1.y_multiplier := by
  refine ⟨rfl, by norm_num [y_pixels_of, paramsC1], by norm_num [paramsC1], ?_⟩
  norm_num [y_pixels_of, paramsC1]

/-- Claim C2: `write_labels` dispatches on the lowercased filename ending:
`.pdf` exports as PDF, `.svg` as SVG; any other name fails with
`UnsupportedFormat` naming the text after the last dot when the name has a
dot, and with `MissingExtension` otherwise; the `.png` branch (guarded by a
duplicated `.pdf` test, line 176) is unreachable. -/
theorem claim_C2 (fn : List Char) :
    (lowerEndsWith fn ".pdf".toList = true → write_action fn = .ok .pdf) ∧
    (lowerEndsWith fn ".svg".toList = true → write_action fn = .ok .svg) ∧
    (lowerEndsWith fn ".pdf".toList = false → lowerEndsWith fn ".svg".toList = false →
      write_action fn =
        if '.' ∈ fn then .error (.unsupportedExt (afterLastDot fn))
        else .error (.missingExt fn)) ∧
    (∀ w, write_action fn = .ok w → w ≠ .png) := by
  refine ⟨?_, ?_, ?_, ?_⟩
  · intro h
    have h' : lowerEndsWith fn ['.', 'p', 'd', 'f'] = true := h
    simp [write_action, h']
  · intro h
    have hpdf : lowerEndsWith fn ".pdf".toList = false := by
      rcases Bool.eq_false_or_eq_true (lowerEndsWith fn ".pdf".toList) with ht | hf
      · exact absurd (not_pdf_and_svg fn ht h) not_false
      · exact hf
    have h' : lowerEndsWith fn ['.', 's', 'v', 'g'] = true := h
    have hpdf' : lowerEndsWith fn ['.', 'p', 'd', 'f'] = false := hpdf
    simp [write_action, h', hpdf']
  · intro h1 h2
    have h1' : lowerEndsWith fn ['.', 'p', 'd', 'f'] = false := h1
    have h2' : lowerEndsWith fn ['.', 's', 'v', 'g'] = false := h2
    simp [write_action, h1', h2']
  · intro w hw
    by_cases h1 : lowerEndsWith fn ['.', 'p', 'd', 'f'] = true
    · simp [write_action, h1] at hw
      rw [← hw]
      simp
    · have h1f : lowerEndsWith fn ['.', 'p', 'd', 'f'] = false := by simpa using h1
      by_cases h2 : lowerEndsWith fn ['.', 's', 'v', 'g'] = true
      · simp [write_action, h1f, h2] at hw
        rw [← hw]
        simp
      · have h2f : lowerEndsWith fn ['.', 's', 'v', 'g'] = false := by simpa using h2
        by_cases hd : '.' ∈ fn <;> simp [write_action, h1f, h2f, hd] at hw

/-- Witness for C2 at a concrete filename: `"out.txt"` fails with
`UnsupportedFormat` naming the extension `"txt"`. -/
theorem claim_C2_witness :
    write_action "out.txt".toList = .error (.unsupportedExt "txt".toList) := by
  have h := (claim_C2 ("out.txt".toList)).2.2.1 (by decide) (by decide)
  rw [h]
  rfl

/-- Claim C3: a flat list of `L ≤ num_rows * num_cols` labels with
`order_by` unspecified or `"row"` normalizes to a dictionary with exactly
`L` entries placing label `i` at `(i / num_cols, i % num_cols)`, and
nothing else. -/
theorem claim_C3 (p : Parameters) (ls : List String) (ob : Option String)
    (hob : ob = none ∨ ob = some "row")
    (hlen : ls.length ≤ p.num_rows * p.num_cols) :
    ∃ d, normalize_labels (.flat ls) ob p = .ok d ∧
      d.length = ls.length ∧
      (∀ i, i < ls.length →
        ((((i / p.num_cols : ℕ) : ℤ), ((i % p.num_cols : ℕ) : ℤ)), ls.getD i "") ∈ d) ∧
      (∀ kv ∈ d, ∃ i, ∃ _ : i < ls.length,
        kv = ((((i / p.num_cols : ℕ) : ℤ), ((i % p.num_cols : ℕ) : ℤ)), ls.getD i "")) := by
  refine ⟨toDict (rowMajorGrid p.num_cols ls),
    normalize_flat_row p ls ob hob hlen, ?_, ?_, ?_⟩
  · rcases eq_or_ne ls [] with hnil | hne
    · subst hnil
      rw [rowMajorGrid_nil]
      rfl
    · obtain ⟨hnr, hnc⟩ := pos_dims_of_flat p ls hne hlen
      rw [toDict_length, sum_map_length_rowMajorGrid p.num_cols hnc]
  · intro i hi
    have hne : ls ≠ [] := by
      intro hnil
      rw [hnil] at hi
      simp at hi
    exact mem_toDict_rowMajorGrid p.num_cols
      (pos_dims_of_flat p ls hne hlen).2 ls i hi
  · intro kv hkv
    rcases eq_or_ne ls [] with hnil | hne
    · subst hnil
      rw [rowMajorGrid_nil] at hkv
      simp [toDict, toDictFrom] at hkv
    · exact toDict_rowMajorGrid_complete p.num_cols
        (pos_dims_of_flat p ls hne hlen).2 ls kv hkv

/-- Witness for C3: `["A", "B", "C"]` on the 2×2 sheet `P0`. -/
theorem claim_C3_witness :
    ∃ d, normalize_labels (.flat ["A", "B", "C"]) none P0 = .ok d ∧
      d.length = (["A", "B", "C"] : List String).length ∧
      (∀ i, i < (["A", "B", "C"] : List String).length →
        ((((i / P0.num_cols : ℕ) : ℤ), ((i % P0.num_cols : ℕ) : ℤ)),
          (["A", "B", "C"] : List String).getD i "") ∈ d) ∧
      (∀ kv ∈ d, ∃ i, ∃ _ : i < (["A", "B", "C"] : List String).length,
        kv = ((((i / P0.num_cols : ℕ) : ℤ), ((i % P0.num_cols : ℕ) : ℤ)),
          (["A", "B", "C"] : List String).getD i "")) :=
  claim_C3 P0 ["A", "B", "C"] none (Or.inl rfl) (by decide)

/-- Claim C4: a flat list of `L ≤ num_rows * num_cols` labels with
`order_by = "col"` normalizes to a dictionary with exactly `L` entries
placing label `i` at `(i % num_rows, i / num_rows)`, and nothing else. -/
theorem claim_C4 (p : Parameters) (ls : List String)
    (hlen : ls.length ≤ p.num_rows * p.num_cols) :
    ∃ d, normalize_labels (.flat ls) (some "col") p = .ok d ∧
      d.length = ls.length ∧
      (∀ i, i < ls.length →
        ((((i % p.num_rows : ℕ) : ℤ), ((i / p.num_rows : ℕ) : ℤ)), ls.getD i "") ∈ d) ∧
      (∀ kv ∈ d, ∃ i, ∃ _ : i < ls.length,
        kv = ((((i % p.num_rows : ℕ) : ℤ), ((i / p.num_rows : ℕ) : ℤ)), ls.getD i "")) := by
  refine ⟨toDict (colMajorGrid p.num_rows ls),
    normalize_flat_col p ls hlen, ?_, ?_, ?_⟩
  · rcases eq_or_ne ls [] with hnil | hne
    · subst hnil
      rw [colMajorGrid_nil]
      rfl
    · obtain ⟨hnr, hnc⟩ := pos_dims_of_flat p ls hne hlen
      rw [toDict_length, sum_map_length_colMajorGrid p.num_rows hnr]
  · intro i hi
    have hne : ls ≠ [] := by
      intro hnil
      rw [hnil] at hi
      simp at hi
    exact mem_toDict_colMajorGrid p.num_rows
      (pos_dims_of_flat p ls hne hlen).1 ls i hi
  · intro kv hkv
    rcases eq_or_ne ls [] with hnil | hne
    · subst hnil
      rw [colMajorGrid_nil] at hkv
      simp [toDict, toDictFrom] at hkv
    · exact toDict_colMajorGrid_complete p.num_rows
        (pos_dims_of_flat p ls hne hlen).1 ls kv hkv

/-- Witness for C4: `["A", "B", "C"]` on the 2×2 sheet `P0` in column-major
order. -/
theorem claim_C4_witness :
    ∃ d, normalize_labels (.flat ["A", "B", "C"]) (some "col") P0 = .ok d ∧
      d.length = (["A", "B", "C"] : List String).length ∧
      (∀ i, i < (["A", "B", "C"] : List String).length →
        ((((i % P0.num_rows : ℕ) : ℤ), ((i / P0.num_rows : ℕ) : ℤ)),
          (["A", "B", "C"] : List String).getD i "") ∈ d) ∧
      (∀ kv ∈ d, ∃ i, ∃ _ : i < (["A", "B", "C"] : List String).length,
        kv = ((((i % P0.num_rows : ℕ) : ℤ), ((i / P0.num_rows : ℕ) : ℤ)),
          (["A", "B", "C"] : List String).getD i "")) :=
  claim_C4 P0 ["A", "B", "C"] (by decide)

/-- Claim C5 as stated is false: with an empty flat list, `normalize_labels`
returns the empty mapping without validating `order_by` at all, and with an
over-long flat list it fails with `TooManyItems` before validating
`order_by`; in neither case does `InvalidOption` surface. -/
theorem claim_C5_counterexample :
    normalize_labels (.flat []) (some "bogus") P0 = .ok [] ∧
    2 ≤ P0.num_rows * P0.num_cols ∧
    normalize_labels (.flat ["a", "b", "c", "d", "e"]) (some "bogus") P0 =
      .error (.tooManyItems 5) := by
  refine ⟨rfl, by decide, ?_⟩
  rfl

/-- Claim C5, amended: for every NONEMPTY flat list of at most
`num_rows * num_cols` labels, any `order_by` other than `"row"` and `"col"`
fails with `InvalidOption`. -/
theorem claim_C5 (p : Parameters) (ls : List String) (ob : String)
    (hne : ls ≠ []) (hlen : ls.length ≤ p.num_rows * p.num_cols)
    (hrow : ob ≠ "row") (hcol : ob ≠ "col") :
    normalize_labels (.flat ls) (some ob) p = .error (.invalidOrderBy ob) := by
  have hlen0 : ¬(ls.length = 0) := by simpa using hne
  have hle : ¬(ls.length > p.num_cols * p.num_rows) := by
    rw [Nat.mul_comm]
    omega
  simp [normalize_labels, hlen0, hle, hrow, hcol]

/-- Witness for the amended C5: `order_by = "bogus"` on a nonempty in-range
flat list. -/
theorem claim_C5_witness :
    normalize_labels (.flat ["a"]) (some "bogus") P0 = .error (.invalidOrderBy "bogus") :=
  claim_C5 P0 ["a"] "bogus" (by decide) (by decide) (by decide) (by decide)

/-- Claim C6: with a valid (or unspecified) `order_by`, a flat list of at
most `num_rows * num_cols` labels normalizes successfully; exactly
`num_rows * num_cols` labels fill every grid position; one more label fails
with `TooManyItems` (for every `order_by`, since the length test precedes
`order_by` validation). -/
theorem claim_C6 (p : Parameters) (ls : List String) (ob : Option String) :
    ((ob = none ∨ ob = some "row" ∨ ob = some "col") →
      ls.length ≤ p.num_rows * p.num_cols →
      ∃ d, normalize_labels (.flat ls) ob p = .ok d) ∧
    (ls.length = p.num_rows * p.num_cols →
      (ob = none ∨ ob = some "row" ∨ ob = some "col") →
      ∃ d, normalize_labels (.flat ls) ob p = .ok d ∧
        ∀ r c, r < p.num_rows → c < p.num_cols →
          ∃ v, (((r : ℤ), (c : ℤ)), v) ∈ d) ∧
    (p.num_rows * p.num_cols + 1 ≤ ls.length →
      normalize_labels (.flat ls) ob p = .error (.tooManyItems ls.length)) := by
  refine ⟨?_, ?_, ?_⟩
  · rintro (hob | hob | hob) hlen
    · exact ⟨_, normalize_flat_row p ls ob (Or.inl hob) hlen⟩
    · exact ⟨_, normalize_flat_row p ls ob (Or.inr hob) hlen⟩
    · subst hob
      exact ⟨_, normalize_flat_col p ls hlen⟩
  · intro hfull hob
    have hlen : ls.length ≤ p.num_rows * p.num_cols := le_of_eq hfull
    rcases hob with hob | hob | hob
    · refine ⟨toDict (rowMajorGrid p.num_cols ls),
        normalize_flat_row p ls ob (Or.inl hob) hlen, ?_⟩
      intro r c hr hc
      have hnc : 0 < p.num_cols := by omega
      have hi : r * p.num_cols + c < ls.length := by
        rw [hfull]
        have h1 : (r + 1) * p.num_cols ≤ p.num_rows * p.num_cols :=
          Nat.mul_le_mul_right _ (by omega)
        have h2 : (r + 1) * p.num_cols = r * p.num_cols + p.num_cols :=
          Nat.succ_mul ..
        omega
      have hdiv : (r * p.num_cols + c) / p.num_cols = r := by
        rw [Nat.add_comm, Nat.add_mul_div_right _ _ hnc, Nat.div_eq_of_lt hc]
        omega
      have hmod : (r * p.num_cols + c) % p.num_cols = c := by
        rw [Nat.add_comm, Nat.add_mul_mod_self_right, Nat.mod_eq_of_lt hc]
      have hm := mem_toDict_rowMajorGrid p.num_cols hnc ls _ hi
      rw [hdiv, hmod] at hm
      exact ⟨ls.getD (r * p.num_cols + c) "", hm⟩
    · refine ⟨toDict (rowMajorGrid p.num_cols ls),
        normalize_flat_row p ls ob (Or.inr hob) hlen, ?_⟩
      intro r c hr hc
      have hnc : 0 < p.num_cols := by omega
      have hi : r * p.num_cols + c < ls.length := by
        rw [hfull]
        have h1 : (r + 1) * p.num_cols ≤ p.num_rows * p.num_cols :=
          Nat.mul_le_mul_right _ (by omega)
        have h2 : (r + 1) * p.num_cols = r * p.num_cols + p.num_cols :=
          Nat.succ_mul ..
        omega
      have hdiv : (r * p.num_cols + c) / p.num_cols = r := by
        rw [Nat.add_comm, Nat.add_mul_div_right _ _ hnc, Nat.div_eq_of_lt hc]
        omega
      have hmod : (r * p.num_cols + c) % p.num_cols = c := by
        rw [Nat.add_comm, Nat.add_mul_mod_self_right, Nat.mod_eq_of_lt hc]
      have hm := mem_toDict_rowMajorGrid p.num_cols hnc ls _ hi
      rw [hdiv, hmod] at hm
      exact ⟨ls.getD (r * p.num_cols + c) "", hm⟩
    · subst hob
      refine ⟨toDict (colMajorGrid p.num_rows ls), normalize_flat_col p ls hlen, ?_⟩
      intro r c hr hc
      have hnr : 0 < p.num_rows := by omega
      have hi : r + c * p.num_rows < ls.length := by
        rw [hfull]
        have hcm : p.num_rows * p.num_cols = p.num_cols * p.num_rows :=
          Nat.mul_comm ..
        have h1 : (c + 1) * p.num_rows ≤ p.num_cols * p.num_rows :=
          Nat.mul_le_mul_right _ (by omega)
        have h2 : (c + 1) * p.num_rows = c * p.num_rows + p.num_rows :=
          Nat.succ_mul ..
        omega
      have hmod : (r + c * p.num_rows) % p.num_rows = r := by
        rw [Nat.add_mul_mod_self_right, Nat.mod_eq_of_lt hr]
      have hdiv : (r + c * p.num_rows) / p.num_rows = c := by
        rw [Nat.add_mul_div_right _ _ hnr, Nat.div_eq_of_lt hr]
        omega
      have hm := mem_toDict_colMajorGrid p.num_rows hnr ls _ hi
      rw [hdiv, hmod] at hm
      exact ⟨ls.getD (r + c * p.num_rows) "", hm⟩
  · exact normalize_flat_too_long p ls ob

/-- Witness for C6 on the 2×2 sheet `P0`: 4 labels succeed and fill every
position, 5 labels fail with `TooManyItems`. -/
theorem claim_C6_witness :
    (∃ d, normalize_labels (.flat ["a", "b", "c", "d"]) none P0 = .ok d) ∧
    (∃ d, normalize_labels (.flat ["a", "b", "c", "d"]) none P0 = .ok d ∧
      ∀ r c, r < P0.num_rows → c < P0.num_cols →
        ∃ v, (((r : ℤ), (c : ℤ)), v) ∈ d) ∧
    normalize_labels (.flat ["a", "b", "c", "d", "e"]) none P0 =
      .error (.tooManyItems (["a", "b", "c", "d", "e"] : List String).length) :=
  ⟨(claim_C6 P0 ["a", "b", "c", "d"] none).1 (Or.inl rfl) (by decide),
   (claim_C6 P0 ["a", "b", "c", "d"] none).2.1 (by decide) (Or.inl rfl),
   (claim_C6 P0 ["a", "b", "c", "d", "e"] none).2.2 (by decide)⟩

/-- Claim C7: a position-keyed mapping with any out-of-bounds key fails
with an out-of-bounds error naming the offending coordinate and the valid
range; in particular `(num_rows, 0)` fails while `(num_rows - 1,
num_cols - 1)` succeeds. -/
theorem claim_C7 (p : Parameters) (entries : List ((ℤ × ℤ) × String)) :
    ((∃ kv ∈ entries, ¬ inBounds p kv.1) →
      ∃ e, normalize_labels (.dict entries) none p = .error e ∧
        oobWitnessed p entries e) ∧
    (∀ v, ∃ e,
      normalize_labels (.dict [(((p.num_rows : ℤ), 0), v)]) none p = .error e ∧
        oobWitnessed p [(((p.num_rows : ℤ), 0), v)] e) ∧
    (0 < p.num_rows → 0 < p.num_cols → ∀ v,
      normalize_labels
          (.dict [((((p.num_rows : ℤ) - 1), ((p.num_cols : ℤ) - 1)), v)]) none p =
        .ok [((((p.num_rows : ℤ) - 1), ((p.num_cols : ℤ) - 1)), v)]) := by
  have main : ∀ es : List ((ℤ × ℤ) × String), (∃ kv ∈ es, ¬ inBounds p kv.1) →
      ∃ e, normalize_labels (.dict es) none p = .error e ∧ oobWitnessed p es e := by
    intro es hbad
    obtain ⟨e, he, hw⟩ := check_bounds_eq_some es p.num_rows p.num_cols hbad
    refine ⟨e, ?_, hw⟩
    simp [normalize_labels, he]
  refine ⟨main entries, ?_, ?_⟩
  · intro v
    refine main _ ⟨(((p.num_rows : ℤ), 0), v), List.mem_cons_self .., ?_⟩
    intro hib
    exact absurd hib.2.1 (lt_irrefl _)
  · intro hnr hnc v
    apply normalize_dict_ok
    intro kv hkv
    rw [List.mem_singleton] at hkv
    subst hkv
    show inBounds p (((p.num_rows : ℤ) - 1), ((p.num_cols : ℤ) - 1))
    exact ⟨by omega, by omega, by omega, by omega⟩

/-- Witness for C7 on the 2×2 sheet `P0`. -/
theorem claim_C7_witness :
    (∃ e, normalize_labels (.dict [(((2 : ℤ), (0 : ℤ)), "x")]) none P0 = .error e ∧
      oobWitnessed P0 [(((2 : ℤ), (0 : ℤ)), "x")] e) ∧
    normalize_labels (.dict [(((1 : ℤ), (1 : ℤ)), "v")]) none P0 =
      .ok [(((1 : ℤ), (1 : ℤ)), "v")] :=
  ⟨(claim_C7 P0 [(((2 : ℤ), (0 : ℤ)), "x")]).1
      ⟨(((2 : ℤ), (0 : ℤ)), "x"), List.mem_cons_self .., by decide⟩,
   (claim_C7 P0 [(((1 : ℤ), (1 : ℤ)), "v")]).2.2 (by decide) (by decide) "v"⟩

/-- Claim C8: an empty or all-whitespace label at a valid position is kept
by normalization but renders to zero primitives; the skip is the
render-time `label.strip() != ''` test, not part of normalization. -/
theorem claim_C8 (p : Parameters) (o : RenderOptions)
    (entries : List ((ℤ × ℤ) × String)) (pos : ℤ × ℤ) (label : String)
    (hbounds : ∀ kv ∈ entries, inBounds p kv.1)
    (hmem : (pos, label) ∈ entries)
    (hws : ∀ c ∈ label.toList, c.isWhitespace) :
    normalize_labels (.dict entries) none p = .ok entries ∧
    (pos, label) ∈ entries ∧
    renderEntry o p (pos, label) = [] := by
  refine ⟨normalize_dict_ok p entries hbounds, hmem, ?_⟩
  have hs : strip label.data = [] := strip_eq_nil label.toList hws
  simp [renderEntry, hs]

/-- Witness for C8: a whitespace-only label at position `(0, 0)` of `P0`. -/
theorem claim_C8_witness :
    normalize_labels (.dict [(((0 : ℤ), (0 : ℤ)), " \t")]) none P0 =
      .ok [(((0 : ℤ), (0 : ℤ)), " \t")] ∧
    (((0 : ℤ), (0 : ℤ)), " \t") ∈ [(((0 : ℤ), (0 : ℤ)), (" \t" : String))] ∧
    renderEntry ⟨true, 8, 0, 0, 1, "Helvetica", "normal", 1.33⟩ P0
      (((0 : ℤ), (0 : ℤ)), " \t") = [] :=
  claim_C8 P0 ⟨true, 8, 0, 0, 1, "Helvetica", "normal", 1.33⟩
    [(((0 : ℤ), (0 : ℤ)), " \t")] ((0 : ℤ), (0 : ℤ)) " \t"
    (by decide) (List.mem_cons_self ..) (by decide)

/-- Claim C9: normalization is the identity on a position-keyed mapping
whose keys all satisfy the grid-bounds invariant. -/
theorem claim_C9 (p : Parameters) (entries : List ((ℤ × ℤ) × String))
    (h : ∀ kv ∈ entries, inBounds p kv.1) :
    normalize_labels (.dict entries) none p = .ok entries :=
  normalize_dict_ok p entries h

/-- Witness for C9 on the 2×2 sheet `P0`. -/
theorem claim_C9_witness :
    normalize_labels (.dict [(((0 : ℤ), (1 : ℤ)), "x"), (((1 : ℤ), (0 : ℤ)), "y")])
        none P0 =
      .ok [(((0 : ℤ), (1 : ℤ)), "x"), (((1 : ℤ), (0 : ℤ)), "y")] :=
  claim_C9 P0 [(((0 : ℤ), (1 : ℤ)), "x"), (((1 : ℤ), (0 : ℤ)), "y")] (by decide)

/-- Claim C10: the empty flat list normalizes to the empty mapping for
every `order_by`, including invalid ones, because `order_by` is only
validated when the list is nonempty. -/
theorem claim_C10 (p : Parameters) (ob : Option String) :
    normalize_labels (.flat []) ob p = .ok [] :=
  normalize_flat_nil p ob

end Labelator
